import Mathlib

/-!
Verification of the Munger Snap scoring engine.

A shallow embedding of `t006_munger_snap/logic.py` (the "four filters"
investment-thesis scorer) together with theorems settling the specification
claims about it.

Modelling conventions:

* Python `str` values are modelled as Lean `String` at the API boundary and as
  `List Char` internally.  Python's `str.lower`, `str.strip`, and the regex
  character classes `\s`, `\d`, `[a-zA-Z0-9']` are modelled over ASCII, which
  is the alphabet all keyword tables and thresholds in the source use.
* Python `float` values produced by `float(...)` on a matched decimal literal
  `-?\d+(\.\d+)?` are modelled as exact rationals (`ℚ`).  Every numeric
  literal of that shape denotes an exact rational; IEEE-754 rounding of
  CPython is abstracted away.
* Python dicts (used only as ordered, literal keyword tables and as the
  insertion-ordered `filters` mapping) are modelled as ordered association
  lists, matching Python's guaranteed insertion-order iteration.
* The dataclass `FilterResult(status, details="", hits=None)` keeps Python's
  three status strings as the enumeration `Status`; `Status.render` recovers
  the exact source strings (`"Pass"`, `"Fail"`, `"Needs Data"`).
-/

attribute [local semireducible] Rat.add Rat.mul Rat.inv Rat.ofScientific Rat.sub

namespace MungerSnap

/-- The three verdict statuses of `FilterResult.status`; the source stores the
strings `"Pass"`, `"Fail"`, `"Needs Data"` and only ever compares them for
equality. -/
inductive Status where
  | Pass
  | Fail
  | NeedsData
deriving DecidableEq, BEq, Repr

/-- The status string as it appears in the Python source. -/
def Status.render : Status → String
  | .Pass => "Pass"
  | .Fail => "Fail"
  | .NeedsData => "Needs Data"

/-- Model of the `FilterResult` dataclass of the source: `status`, `details` (default
`""`), `hits` (default `None`). -/
structure FilterResult where
  status : Status
  details : String := ""
  hits : Option (List String) := none
deriving DecidableEq, Repr

/-- Model of the `Snapshot` dataclass of the source.  `filters` is the insertion-ordered
dict built in `four_filters`, modelled as an ordered association list. -/
structure Snapshot where
  filters : List (String × FilterResult)
  invert : String
  biases : List String
  posture : String
  copy_text : String
deriving DecidableEq, Repr

/-! ## Character-level helpers (ASCII model of the Python text primitives) -/

/-- ASCII model of `str.lower` (Lean's `Char.toLower` maps exactly `A`-`Z`). -/
def pyLower (l : List Char) : List Char := l.map Char.toLower

/-- ASCII model of Python's whitespace class (`str.strip` / regex `\s`). -/
def isPySpace (c : Char) : Bool :=
  c == ' ' || c == '\t' || c == '\n' || c == '\r' || c == '\x0b' || c == '\x0c'

/-- Model of `str.strip`: drop whitespace from both ends. -/
def pyStrip (l : List Char) : List Char :=
  ((l.dropWhile isPySpace).reverse.dropWhile isPySpace).reverse

/-- Does `pre` start `l`? -/
def startsWith : List Char → List Char → Bool
  | [], _ => true
  | _ :: _, [] => false
  | a :: as, b :: bs => a == b && startsWith as bs

/-- Model of Python's substring operator `needle in haystack`. -/
def occursIn (needle : List Char) : List Char → Bool
  | [] => needle.isEmpty
  | c :: rest => startsWith needle (c :: rest) || occursIn needle rest

/-- Character class of the token regex `[a-zA-Z0-9']`. -/
def isWordChar (c : Char) : Bool := c.isAlphanum || c == '\''

/-! ## Tokenizer / segmenter (`_tokenize_words`, `_count_sentences`,
`_count_paragraphs`) -/

/-- Accumulating worker for `re.findall(r"[a-zA-Z0-9']+", ...)`: collects the
maximal runs of word characters.  `acc` is the (in-order) run in progress. -/
def tokensAux : List Char → List Char → List (List Char)
  | [], acc => if acc = [] then [] else [acc]
  | c :: rest, acc =>
      if isWordChar c then tokensAux rest (acc ++ [c])
      else if acc = [] then tokensAux rest []
      else acc :: tokensAux rest []

/-- Model of `_tokenize_words(text)`: `re.findall(r"[a-zA-Z0-9']+", text.lower())`. -/
def _tokenize_words (text : List Char) : List (List Char) :=
  tokensAux (pyLower text) []

/-- Split at every single occurrence of `.`, `!`, `?`.  `re.split(r"[.!?]+", t)`
splits at maximal runs instead, but after the strip-and-drop-empty step of
`_count_sentences` the two give the same list: a run of `k` delimiters
contributes `k-1` empty segments, all of which are dropped. -/
def splitSentChars : List Char → List Char → List (List Char)
  | [], acc => [acc]
  | c :: rest, acc =>
      if c == '.' || c == '!' || c == '?' then acc :: splitSentChars rest []
      else splitSentChars rest (acc ++ [c])

/-- Model of `_count_sentences(text)` (despite the name, the source returns the list of
stripped non-empty sentence fragments). -/
def _count_sentences (text : List Char) : List (List Char) :=
  ((splitSentChars text []).map pyStrip).filter (fun p => p ≠ [])

/-- Number of `'\n'` characters in a list. -/
def countNl (l : List Char) : Nat := (l.filter (fun c => c == '\n')).length

/-- The part of a whitespace run before its first newline. -/
def beforeFirstNl (l : List Char) : List Char := l.takeWhile (fun c => c != '\n')

/-- The part of a whitespace run after its last newline. -/
def afterLastNl (l : List Char) : List Char :=
  (l.reverse.takeWhile (fun c => c != '\n')).reverse

/-- Model of `re.split(r"\n\s*\n", text)`.  A (leftmost, greedy) match of
`\n\s*\n` runs from the first newline of a maximal whitespace run to the last
newline of that run, and exists exactly when the run holds at least two
newlines.  The scan buffers each whitespace run in `ws`; on leaving the run it
either cuts a segment there (≥ 2 newlines: the run's chars before its first
newline end the previous segment, those after its last newline begin the next)
or folds the run into the current segment `acc`. -/
def splitParas : List Char → List Char → List Char → List (List Char)
  | [], acc, ws =>
      if countNl ws ≥ 2 then [acc ++ beforeFirstNl ws, afterLastNl ws]
      else [acc ++ ws]
  | c :: rest, acc, ws =>
      if isPySpace c then splitParas rest acc (ws ++ [c])
      else if countNl ws ≥ 2 then
        (acc ++ beforeFirstNl ws) :: splitParas rest (afterLastNl ws ++ [c]) []
      else splitParas rest (acc ++ ws ++ [c]) []

/-- Model of `_count_paragraphs(text)`. -/
def _count_paragraphs (text : List Char) : Nat :=
  let paragraphs := (splitParas text [] []).filter (fun p => pyStrip p ≠ [])
  if paragraphs ≠ [] then paragraphs.length
  else if pyStrip text ≠ [] then 1 else 0

/-! ## Numeric parsing (`_parse_number`) -/

/-- Value of a list of decimal digit characters. -/
def digitsVal (l : List Char) : Nat :=
  l.foldl (fun n c => 10 * n + (c.toNat - 48)) 0

/-- The maximal match of `\d+(?:\.\d+)?` starting at the head of `l` (which is
assumed to start with a digit). -/
def numTail (l : List Char) : List Char :=
  let ds := l.takeWhile Char.isDigit
  match l.dropWhile Char.isDigit with
  | '.' :: r =>
      let fs := r.takeWhile Char.isDigit
      if fs = [] then ds else ds ++ '.' :: fs
  | _ => ds

/-- Does a list start with a decimal digit? -/
def headIsDigit : List Char → Bool
  | d :: _ => d.isDigit
  | [] => false

/-- Leftmost match of `re.search(r"-?\d+(?:\.\d+)?", ...)`: scanning left to
right, a match begins at the first position holding a digit, or holding a
minus sign immediately followed by a digit (the two cases are disjoint, as
`'-'` is not a digit). -/
def extractNumber : List Char → Option (List Char)
  | [] => none
  | c :: rest =>
      if c.isDigit then some (numTail (c :: rest))
      else if c == '-' && headIsDigit rest then some ('-' :: numTail rest)
      else extractNumber rest

/-- Exact rational value of a non-negative matched literal `\d+(\.\d+)?`. -/
def floatOfNonneg (l : List Char) : ℚ :=
  let ip := l.takeWhile Char.isDigit
  match l.dropWhile Char.isDigit with
  | '.' :: fp => (digitsVal ip : ℚ) + (digitsVal fp : ℚ) / (10 : ℚ) ^ fp.length
  | _ => (digitsVal ip : ℚ)

/-- Exact rational value of a matched literal `-?\d+(\.\d+)?`; models
`float(match.group(0))` (which never raises on such a literal, so the
source's `except ValueError` branch is dead code). -/
def floatOfMatch (m : List Char) : ℚ :=
  match m with
  | '-' :: rest => -(floatOfNonneg rest)
  | _ => floatOfNonneg m

/-- Model of `_parse_number(raw)`: strip, lowercase, delete `%` and `~`, then take the
leftmost `-?\d+(?:\.\d+)?` match, if any. -/
def _parse_number (raw : Option String) : Option ℚ :=
  match raw with
  | none => none
  | some r =>
      let text := pyLower (pyStrip r.toList)
      if text = [] then none
      else
        let text := text.filter (fun c => c != '%' && c != '~')
        match extractNumber text with
        | none => none
        | some m => some (floatOfMatch m)

/-! ## Static keyword tables (ordered as declared in the source) -/

/-- The `MOAT_KEYWORDS` dict: keyword → label, in declaration order. -/
def MOAT_KEYWORDS : List (String × String) := [
  ("network effect", "Network effects"),
  ("network effects", "Network effects"),
  ("switching cost", "Switching costs"),
  ("switching costs", "Switching costs"),
  ("brand", "Brand strength"),
  ("flywheel", "Flywheel"),
  ("scale", "Scale advantage"),
  ("cost advantage", "Cost advantage"),
  ("distribution", "Distribution reach"),
  ("regulation", "Regulatory license")]

/-- The `MANAGEMENT_POSITIVE` dict: keyword → label. -/
def MANAGEMENT_POSITIVE : List (String × String) := [
  ("founder-led", "Founder-led"),
  ("founder led", "Founder-led"),
  ("owner-operator", "Owner-operator"),
  ("owner operator", "Owner-operator"),
  ("insider ownership", "Insider ownership"),
  ("insider-owned", "Insider ownership"),
  ("buyback", "Buybacks"),
  ("buybacks", "Buybacks"),
  ("roic", "High ROIC"),
  ("return on capital", "Returns on capital"),
  ("capital allocator", "Capital allocation"),
  ("capital allocation", "Capital allocation"),
  ("skin in the game", "Skin in the game")]

/-- The `MANAGEMENT_RED_FLAGS` dict: keyword → label. -/
def MANAGEMENT_RED_FLAGS : List (String × String) := [
  ("restatement", "Accounting restatement"),
  ("probe", "Regulatory probe"),
  ("investigation", "Investigation"),
  ("fraud", "Fraud mention"),
  ("lawsuit", "Shareholder lawsuit"),
  ("sec", "SEC scrutiny"),
  ("resignation", "Leadership turnover")]

/-- The `BIAS_KEYWORDS` dict: category key → (display name, keyword list).  In the
source every key equals its display name. -/
def BIAS_KEYWORDS : List (String × String × List String) := [
  ("Incentives", "Incentives",
    ["bonus", "commission", "fees", "subsidy", "rebate", "kickback", "option",
     "equity comp", "stock grant", "performance pay", "founder-led",
     "founder led", "founder", "buyback", "buybacks", "yield", "fcf",
     "owner-operator", "owner operator", "insider ownership"]),
  ("Social-Proof", "Social-Proof",
    ["customers", "peers", "trend", "hype", "viral", "adoption", "reference",
     "case study", "industry standard", "partnership", "network effect",
     "network effects", "switching cost", "switching costs", "integrations",
     "integration", "community"]),
  ("Commitment/Consistency", "Commitment/Consistency",
    ["long-term contract", "multi-year", "switching cost", "switching costs",
     "integrations", "installed base", "locked in", "legacy system",
     "prior investment"]),
  ("Authority", "Authority",
    ["regulator", "regulators", "regulation", "mandate", "government",
     "board approval", "expert", "advisor", "consultant"])]

/-- The `INVERSION_RULES` table: ordered (trigger keywords, prompt) pairs. -/
def INVERSION_RULES : List (List String × String) := [
  (["network effect", "network effects"],
   "What breaks network effects? (regulatory fee caps, platform API changes, competitor subsidies)."),
  (["switching cost", "switching costs"],
   "What erodes switching costs? (migration tooling, interoperability mandates, bundled pricing)."),
  (["brand"],
   "Where does the brand lose trust? (quality lapses, pricing power pushback, reputational hits)."),
  (["cost advantage", "scale"],
   "Who undercuts the cost advantage? (input inflation, vertical integration, price wars)."),
  (["regulation", "license"],
   "How could regulation flip? (license removal, new entrants approved, compliance burdens).")]

/-! ## Filter scorers -/

/-- The `first_sentence_words` of `_score_understandable`, counted:
`_tokenize_words(sentences[0]) if sentences else []`. -/
def firstSentenceWordCount (cleaned : List Char) : Nat :=
  match _count_sentences cleaned with
  | s :: _ => (_tokenize_words s).length
  | [] => 0

/-- The `long_word_ratio` of `_score_understandable`:
`len(long_words) / max(len(words), 1)` with `long_words` the tokens longer
than 12 characters. -/
def longWordRatio (cleaned : List Char) : ℚ :=
  (((_tokenize_words cleaned).filter (fun w => w.length > 12)).length : ℚ)
    / (max (_tokenize_words cleaned).length 1 : ℚ)

/-- The `misses` list of `_score_understandable`: one remediation message per
failing condition, in the fixed order summary, jargon, segments. -/
def understandMisses (summaryOk jargonOk segmentsOk : Bool) : List String :=
  (if !summaryOk then ["Add a <=30 word summary line up top."] else []) ++
  (if !jargonOk then ["High jargon density—clarify plain language."] else []) ++
  (if !segmentsOk then ["Too many disjoint segments—tighten focus."] else [])

/-- Model of `_score_understandable(thesis)`. -/
def _score_understandable (thesis : String) : FilterResult :=
  let cleaned := pyStrip thesis.toList
  if cleaned = [] then ⟨Status.Fail, "Add a concise thesis summary.", none⟩
  else
    let summaryOk : Bool := firstSentenceWordCount cleaned ≤ 30
    let jargonOk : Bool := longWordRatio cleaned ≤ (0.2 : ℚ)
    let segmentsOk : Bool := _count_paragraphs cleaned ≤ 2
    if summaryOk && jargonOk && segmentsOk then
      ⟨Status.Pass, "Clear one-sentence hook; jargon in check.", none⟩
    else
      ⟨Status.Fail, String.intercalate " " (understandMisses summaryOk jargonOk segmentsOk), none⟩

/-- The keyword-table loop shared by `_score_moat` and `_score_management`:
append each matching keyword's label, skipping labels already collected. -/
def collectHitsFrom (text : List Char) : List (String × String) → List String → List String
  | [], hits => hits
  | (keyword, label) :: rest, hits =>
      if occursIn keyword.toList text ∧ label ∉ hits then
        collectHitsFrom text rest (hits ++ [label])
      else collectHitsFrom text rest hits

/-- Model of `_score_moat(thesis)`. -/
def _score_moat (thesis : String) : FilterResult :=
  let text := pyLower thesis.toList
  let hits := collectHitsFrom text MOAT_KEYWORDS []
  if hits ≠ [] then ⟨Status.Pass, String.intercalate ", " hits, some hits⟩
  else ⟨Status.Fail, "Spell out the moat (network effects, switching costs, brand, cost advantage).", none⟩

/-- Model of `_score_management(thesis)`. -/
def _score_management (thesis : String) : FilterResult :=
  let text := pyLower thesis.toList
  let positives := collectHitsFrom text MANAGEMENT_POSITIVE []
  let negatives := collectHitsFrom text MANAGEMENT_RED_FLAGS []
  if negatives ≠ [] then
    ⟨Status.Fail, "Red flags: " ++ String.intercalate ", " negatives, none⟩
  else if positives ≠ [] then
    ⟨Status.Pass, String.intercalate ", " positives, none⟩
  else
    ⟨Status.Fail, "Note owner-operator traits, insider ownership, or capital allocation history.", none⟩

/-- One-decimal rendering of a rational, rounding half to even; models the
CPython `f"{x:.1f}"` format of the (small, exactly-parsed) values that reach
it.  (The sign of a negative value rounding to zero is dropped, where CPython
would print `-0.0`; no value reaching a detail string in a claim does this.) -/
def fmt1 (q : ℚ) : String :=
  let scaled := q * 10
  let fl : ℤ := scaled.floor
  let frac := scaled - (fl : ℚ)
  let n : ℤ :=
    if frac > 1 / 2 then fl + 1
    else if frac < 1 / 2 then fl
    else if fl % 2 = 0 then fl else fl + 1
  let a := n.natAbs
  (if n < 0 then "-" else "") ++ toString (a / 10) ++ "." ++ toString (a % 10)

/-- Model of `_score_margin_of_safety(pe_text, fcf_yield_text)`, with the source's
`if`-cascade (P/E rule, then FCF-yield rule, then per-value failure details,
then Needs Data) expanded over the two `Option` parses. -/
def _score_margin_of_safety (pe_text fcf_yield_text : Option String) : FilterResult :=
  let pe := _parse_number pe_text
  let fcf_yield := _parse_number fcf_yield_text
  match pe, fcf_yield with
  | some p, some f =>
      if p ≤ 15 then ⟨Status.Pass, "P/E " ++ fmt1 p ++ " within <=15 guardrail.", none⟩
      else if f ≥ 6 then ⟨Status.Pass, "FCF yield " ++ fmt1 f ++ "% clears >=6% bar.", none⟩
      else ⟨Status.Fail,
        String.intercalate "; " ["P/E " ++ fmt1 p ++ " > 15", "FCF yield " ++ fmt1 f ++ "% < 6%"],
        none⟩
  | some p, none =>
      if p ≤ 15 then ⟨Status.Pass, "P/E " ++ fmt1 p ++ " within <=15 guardrail.", none⟩
      else ⟨Status.Fail, String.intercalate "; " ["P/E " ++ fmt1 p ++ " > 15"], none⟩
  | none, some f =>
      if f ≥ 6 then ⟨Status.Pass, "FCF yield " ++ fmt1 f ++ "% clears >=6% bar.", none⟩
      else ⟨Status.Fail, String.intercalate "; " ["FCF yield " ++ fmt1 f ++ "% < 6%"], none⟩
  | none, none => ⟨Status.NeedsData, "— add P/E or FCF-yield to judge MOS.", none⟩

/-! ## Bias ranker, inversion advisor, posture, report -/

/-- First accumulation loop of `_rank_biases`: append each bias that is in
`triggered` and not yet in `final`. -/
def pickTriggered (triggered : List String) : List String → List String → List String
  | [], final => final
  | b :: rest, final =>
      if b ∈ triggered ∧ b ∉ final then pickTriggered triggered rest (final ++ [b])
      else pickTriggered triggered rest final

/-- Second accumulation loop of `_rank_biases`: append every bias not yet in
`final`. -/
def fillRemaining : List String → List String → List String
  | [], final => final
  | b :: rest, final =>
      if b ∉ final then fillRemaining rest (final ++ [b])
      else fillRemaining rest final

/-- Is some keyword of a bias category a substring of the text? -/
def biasTriggered (text : List Char) (keywords : List String) : Bool :=
  keywords.any (fun keyword => occursIn keyword.toList text)

/-- Model of `_rank_biases(thesis)`.  The source's single loop builds `ordered_biases`
(all display names in declaration order) and `triggered` (display names whose
category fired, in declaration order); here those are the equivalent
map/filter of the table. -/
def _rank_biases (thesis : String) : List String :=
  let text := pyLower thesis.toList
  let ordered_biases := BIAS_KEYWORDS.map (fun p => p.2.1)
  let triggered := (BIAS_KEYWORDS.filter (fun p => biasTriggered text p.2.2)).map (fun p => p.2.1)
  (fillRemaining ordered_biases (pickTriggered triggered ordered_biases [])).take 3

/-- The generic fallback prompt of `_invert_question`. -/
def genericInversionPrompt : String :=
  "What would have to be true for this to fail? Pressure-test customer churn, pricing power, and management behavior."

/-- Rule loop of `_invert_question`: the first rule whose keywords hit the
thesis text, or (when the moat verdict produced hits) hit one of the
lowercased moat hit labels, wins. -/
def findPrompt (text : List Char) (moat_hits : List (List Char)) :
    List (List String × String) → String
  | [] => genericInversionPrompt
  | (keywords, prompt) :: rest =>
      if keywords.any (fun k => occursIn k.toList text) then prompt
      else if !moat_hits.isEmpty &&
          moat_hits.any (fun hit => keywords.any (fun k => occursIn k.toList hit)) then prompt
      else findPrompt text moat_hits rest

/-- The `moat_hits` list of `_invert_question`: Python's
`if moat_result.hits:` treats both `None` and `[]` as false, so only a
non-empty hit list is lowercased and used. -/
def invMoatHits (moat_result : FilterResult) : List (List Char) :=
  match moat_result.hits with
  | some (h :: t) => (h :: t).map (fun s => pyLower s.toList)
  | _ => ([] : List (List Char))

/-- Model of `_invert_question(thesis, moat_result)`. -/
def _invert_question (thesis : String) (moat_result : FilterResult) : String :=
  let text := pyLower thesis.toList
  let moat_hits := invMoatHits moat_result
  findPrompt text moat_hits INVERSION_RULES

/-- Model of `_posture(filters)`: the source's `sum(1 for f in ... if ...)` counts are
the lengths of the corresponding filtered value lists. -/
def _posture (filters : List (String × FilterResult)) : String :=
  let passes := (filters.filter (fun f => f.2.status == Status.Pass)).length
  let fails := (filters.filter (fun f => f.2.status == Status.Fail)).length
  let needs := (filters.filter (fun f => f.2.status == Status.NeedsData)).length
  if fails ≥ 2 then "No"
  else if fails = 0 ∧ needs = 0 ∧ passes ≥ 3 then "Go"
  else "Wait"

/-- Model of `_build_copy(filters, invert, biases, posture)`. -/
def _build_copy (filters : List (String × FilterResult)) (invert : String)
    (biases : List String) (posture : String) : String :=
  let lines := ["Four-Filters Snapshot"] ++
    filters.map (fun nr =>
      let detail := if nr.2.details ≠ "" then " — " ++ nr.2.details else ""
      nr.1 ++ ": " ++ nr.2.status.render ++ detail) ++
    ["Invert: " ++ invert,
     "Bias Risks: " ++ String.intercalate ", " biases,
     "Posture: " ++ posture]
  String.intercalate "\n" lines

/-- Model of `four_filters(thesis, pe_text, fcf_yield_text)`, the `analyze` entry
point.  The source passes `filters["Moat"]` to `_invert_question`; that dict
entry is exactly `_score_moat(thesis)`. -/
def four_filters (thesis : String) (pe_text : Option String := none)
    (fcf_yield_text : Option String := none) : Snapshot :=
  let filters : List (String × FilterResult) := [
    ("Understandable", _score_understandable thesis),
    ("Moat", _score_moat thesis),
    ("Management", _score_management thesis),
    ("Margin of Safety", _score_margin_of_safety pe_text fcf_yield_text)]
  let invert := _invert_question thesis (_score_moat thesis)
  let biases := _rank_biases thesis
  let posture := _posture filters
  let copy_text := _build_copy filters invert biases posture
  ⟨filters, invert, biases, posture, copy_text⟩

/-! ## Reference definitions used to state the claims -/

/-- Order-preserving, first-occurrence deduplication relative to an initial
`seen` list; the reference shape of the source's append-if-absent loops. -/
def dedupFrom (seen : List String) : List String → List String
  | [] => []
  | x :: xs => if x ∈ seen then dedupFrom seen xs else x :: dedupFrom (seen ++ [x]) xs

/-- Does an inversion rule fire?  Either a trigger keyword occurs in the
(lowercased) thesis text, or the moat verdict produced hits and a trigger
keyword occurs in one of the (lowercased) hit labels. -/
def ruleMatches (text : List Char) (moat_hits : List (List Char))
    (rule : List String × String) : Bool :=
  rule.1.any (fun k => occursIn k.toList text) ||
    (!moat_hits.isEmpty && moat_hits.any (fun hit => rule.1.any (fun k => occursIn k.toList hit)))

/-- The posture rule exactly as the specification words it: a function of the
four verdict statuses alone.  ≥ 2 `Fail` → `No`; else 0 `Fail`, 0 `NeedsData`
and ≥ 3 `Pass` → `Go`; else `Wait`. -/
def postureSpec (s1 s2 s3 s4 : Status) : String :=
  let statuses := [s1, s2, s3, s4]
  let fails := (statuses.filter (fun s => s == Status.Fail)).length
  let needs := (statuses.filter (fun s => s == Status.NeedsData)).length
  let passes := (statuses.filter (fun s => s == Status.Pass)).length
  if 2 ≤ fails then "No"
  else if fails = 0 ∧ needs = 0 ∧ 3 ≤ passes then "Go"
  else "Wait"

/-! ## Supporting lemmas -/

theorem startsWith_iff (p : List Char) : ∀ l, startsWith p l = true ↔ ∃ t, l = p ++ t := by
  induction p with
  | nil =>
      intro l
      simp [startsWith]
  | cons a as ih =>
      intro l
      cases l with
      | nil =>
          simp [startsWith]
      | cons b bs =>
          simp only [startsWith, Bool.and_eq_true, beq_iff_eq, ih, List.cons_append,
            List.cons.injEq]
          constructor
          · rintro ⟨hab, t, ht⟩
            exact ⟨t, hab.symm, ht⟩
          · rintro ⟨t, hab, ht⟩
            exact ⟨hab.symm, t, ht⟩

theorem occursIn_iff (n : List Char) : ∀ h, occursIn n h = true ↔ ∃ s t, h = s ++ n ++ t := by
  intro h
  induction h with
  | nil =>
      simp only [occursIn, List.isEmpty_iff]
      constructor
      · intro hn
        exact ⟨[], [], by simp [hn]⟩
      · rintro ⟨s, t, hst⟩
        rcases List.append_eq_nil.mp (List.append_eq_nil.mp hst.symm).1 with ⟨-, hn⟩
        exact hn
  | cons c rest ih =>
      simp only [occursIn, Bool.or_eq_true, startsWith_iff, ih]
      constructor
      · rintro (⟨t, ht⟩ | ⟨s, t, hst⟩)
        · exact ⟨[], t, by simpa using ht⟩
        · exact ⟨c :: s, t, by simp [hst]⟩
      · rintro ⟨s, t, hst⟩
        cases s with
        | nil =>
            exact Or.inl ⟨t, by simpa using hst⟩
        | cons c' s' =>
            rw [List.cons_append, List.cons_append, List.cons.injEq] at hst
            exact Or.inr ⟨s', t, hst.2⟩

theorem collectHitsFrom_eq (text : List Char) :
    ∀ (table : List (String × String)) (acc : List String),
      collectHitsFrom text table acc
        = acc ++ dedupFrom acc ((table.filter (fun kl => occursIn kl.1.toList text)).map Prod.snd) := by
  intro table
  induction table with
  | nil =>
      intro acc
      simp [collectHitsFrom, dedupFrom]
  | cons kl rest ih =>
      intro acc
      obtain ⟨kw, lb⟩ := kl
      rw [collectHitsFrom]
      by_cases hm : occursIn kw.toList text = true
      · by_cases hl : lb ∈ acc
        · rw [if_neg (by simp [hm, hl]), ih, List.filter_cons, if_pos (by simpa using hm)]
          simp only [List.map_cons, dedupFrom, if_pos hl]
        · rw [if_pos ⟨hm, hl⟩, ih, List.filter_cons, if_pos (by simpa using hm)]
          simp only [List.map_cons, dedupFrom, if_neg hl, List.append_assoc,
            List.singleton_append]
      · rw [if_neg (fun hc => hm hc.1), ih, List.filter_cons, if_neg (by simpa using hm)]

theorem mem_dedupFrom (x : String) :
    ∀ (l seen : List String), x ∈ dedupFrom seen l ↔ x ∈ l ∧ x ∉ seen := by
  intro l
  induction l with
  | nil =>
      intro seen
      simp [dedupFrom]
  | cons y ys ih =>
      intro seen
      rw [dedupFrom]
      by_cases hy : y ∈ seen
      · rw [if_pos hy, ih]
        constructor
        · rintro ⟨hx, hns⟩
          exact ⟨List.mem_cons_of_mem _ hx, hns⟩
        · rintro ⟨hx, hns⟩
          rcases List.mem_cons.mp hx with rfl | hx'
          · exact absurd hy hns
          · exact ⟨hx', hns⟩
      · rw [if_neg hy]
        simp only [List.mem_cons, ih, List.mem_append, List.mem_singleton]
        by_cases hxy : x = y
        · subst hxy
          simp [hy]
        · simp [hxy]

theorem nodup_dedupFrom : ∀ (l seen : List String), (dedupFrom seen l).Nodup := by
  intro l
  induction l with
  | nil =>
      intro seen
      simp [dedupFrom]
  | cons y ys ih =>
      intro seen
      rw [dedupFrom]
      split
      · exact ih _
      · refine List.nodup_cons.mpr ⟨fun hy => ?_, ih _⟩
        exact ((mem_dedupFrom y ys _).mp hy).2 (by simp)

theorem dedupFrom_nil_eq_nil_iff (l : List String) : dedupFrom [] l = [] ↔ l = [] := by
  cases l with
  | nil => simp [dedupFrom]
  | cons y ys => simp [dedupFrom]

theorem collectHits_ne_nil_iff (text : List Char) (table : List (String × String)) :
    collectHitsFrom text table [] ≠ [] ↔ ∃ kl ∈ table, occursIn kl.1.toList text = true := by
  rw [collectHitsFrom_eq, List.nil_append, ne_eq, dedupFrom_nil_eq_nil_iff,
    List.map_eq_nil_iff, List.filter_eq_nil_iff]
  simp

theorem pickTriggered_eq (t : List String) :
    ∀ (l acc : List String), l.Nodup → (∀ x ∈ l, x ∉ acc) →
      pickTriggered t l acc = acc ++ l.filter (fun b => decide (b ∈ t)) := by
  intro l
  induction l with
  | nil =>
      intro acc _ _
      simp [pickTriggered]
  | cons b rest ih =>
      intro acc hnd hdisj
      obtain ⟨hbr, hrest⟩ := List.nodup_cons.mp hnd
      have hba : b ∉ acc := hdisj b (List.mem_cons_self b rest)
      rw [pickTriggered]
      by_cases hbt : b ∈ t
      · have hdisj' : ∀ x ∈ rest, x ∉ acc ++ [b] := by
          intro x hx
          simp only [List.mem_append, List.mem_singleton]
          rintro (hxa | rfl)
          · exact hdisj x (List.mem_cons_of_mem _ hx) hxa
          · exact hbr hx
        rw [if_pos ⟨hbt, hba⟩, ih (acc ++ [b]) hrest hdisj', List.filter_cons,
          if_pos (by simpa using hbt)]
        simp
      · rw [if_neg (fun hc => hbt hc.1),
          ih acc hrest (fun x hx => hdisj x (List.mem_cons_of_mem _ hx)),
          List.filter_cons, if_neg (by simpa using hbt)]

theorem fillRemaining_eq :
    ∀ (l acc : List String), l.Nodup →
      fillRemaining l acc = acc ++ l.filter (fun b => decide (b ∉ acc)) := by
  intro l
  induction l with
  | nil =>
      intro acc _
      simp [fillRemaining]
  | cons b rest ih =>
      intro acc hnd
      obtain ⟨hbr, hrest⟩ := List.nodup_cons.mp hnd
      rw [fillRemaining]
      by_cases hba : b ∈ acc
      · rw [if_neg (not_not_intro hba), ih acc hrest, List.filter_cons,
          if_neg (by simpa using hba)]
      · rw [if_pos hba, ih (acc ++ [b]) hrest, List.filter_cons, if_pos (by simpa using hba)]
        have hcongr : rest.filter (fun x => decide (x ∉ acc ++ [b]))
            = rest.filter (fun x => decide (x ∉ acc)) := by
          apply List.filter_congr
          intro x hx
          have hxb : x ≠ b := fun h => hbr (h ▸ hx)
          simp [List.mem_append, hxb]
        rw [hcongr]
        simp

theorem map_filter_subset (f : String × String × List String → Bool)
    (l : List (String × String × List String)) :
    ∀ x ∈ (l.filter f).map (fun p => p.2.1), x ∈ l.map (fun p => p.2.1) := by
  intro x hx
  obtain ⟨p, hp, rfl⟩ := List.mem_map.mp hx
  exact List.mem_map.mpr ⟨p, List.mem_of_mem_filter hp, rfl⟩

theorem filter_mem_triggered (f : String × String × List String → Bool) :
    ∀ l : List (String × String × List String), (l.map (fun p => p.2.1)).Nodup →
      (l.map (fun p => p.2.1)).filter
          (fun b => decide (b ∈ (l.filter f).map (fun p => p.2.1)))
        = (l.filter f).map (fun p => p.2.1) := by
  intro l
  induction l with
  | nil =>
      intro _
      simp
  | cons p rest ih =>
      intro hnd
      rw [List.map_cons] at hnd
      obtain ⟨hpn, hrest⟩ := List.nodup_cons.mp hnd
      by_cases hf : f p = true
      · rw [List.filter_cons, if_pos hf, List.map_cons, List.map_cons, List.filter_cons,
          if_pos (by simp)]
        have hcongr : (rest.map (fun p => p.2.1)).filter
              (fun b => decide (b ∈ p.2.1 :: (rest.filter f).map (fun p => p.2.1)))
            = (rest.map (fun p => p.2.1)).filter
              (fun b => decide (b ∈ (rest.filter f).map (fun p => p.2.1))) := by
          apply List.filter_congr
          intro x hx
          have hxp : x ≠ p.2.1 := fun h => hpn (h ▸ hx)
          simp [hxp]
        rw [hcongr, ih hrest]
      · rw [List.filter_cons, if_neg hf, List.map_cons, List.filter_cons, if_neg ?head]
        case head =>
          simp only [decide_eq_true_eq]
          intro hmem
          exact hpn (map_filter_subset f rest _ hmem)
        exact ih hrest

theorem filter_not_triggered (f : String × String × List String → Bool) :
    ∀ l : List (String × String × List String), (l.map (fun p => p.2.1)).Nodup →
      (l.map (fun p => p.2.1)).filter
          (fun b => decide (b ∉ (l.filter f).map (fun p => p.2.1)))
        = (l.filter (fun p => !f p)).map (fun p => p.2.1) := by
  intro l
  induction l with
  | nil =>
      intro _
      simp
  | cons p rest ih =>
      intro hnd
      rw [List.map_cons] at hnd
      obtain ⟨hpn, hrest⟩ := List.nodup_cons.mp hnd
      by_cases hf : f p = true
      · rw [List.filter_cons, if_pos hf, List.map_cons, List.map_cons, List.filter_cons,
          if_neg (by simp), List.filter_cons, if_neg (by simp [hf])]
        have hcongr : (rest.map (fun p => p.2.1)).filter
              (fun b => decide (b ∉ p.2.1 :: (rest.filter f).map (fun p => p.2.1)))
            = (rest.map (fun p => p.2.1)).filter
              (fun b => decide (b ∉ (rest.filter f).map (fun p => p.2.1))) := by
          apply List.filter_congr
          intro x hx
          have hxp : x ≠ p.2.1 := fun h => hpn (h ▸ hx)
          simp [hxp]
        rw [hcongr, ih hrest]
      · rw [List.filter_cons, if_neg hf, List.map_cons, List.filter_cons, if_pos ?head,
          List.filter_cons, if_pos (by simp [hf]), List.map_cons]
        case head =>
          simp only [decide_eq_true_eq]
          intro hmem
          exact hpn (map_filter_subset f rest _ hmem)
        rw [ih hrest]

theorem rank_biases_characterization (thesis : String) :
    _rank_biases thesis
      = (((BIAS_KEYWORDS.filter (fun p => biasTriggered (pyLower thesis.toList) p.2.2)).map
            (fun p => p.2.1))
          ++ ((BIAS_KEYWORDS.filter (fun p => !biasTriggered (pyLower thesis.toList) p.2.2)).map
            (fun p => p.2.1))).take 3 := by
  have hnd : (BIAS_KEYWORDS.map (fun p => p.2.1)).Nodup := by decide
  simp only [_rank_biases]
  rw [pickTriggered_eq _ _ _ hnd (by simp), List.nil_append,
    filter_mem_triggered _ _ hnd, fillRemaining_eq _ _ hnd, filter_not_triggered _ _ hnd]

theorem findPrompt_first (text : List Char) (moat_hits : List (List Char)) :
    ∀ (pre : List (List String × String)) (rule : List String × String)
      (post : List (List String × String)),
      (∀ r ∈ pre, ruleMatches text moat_hits r = false) →
      ruleMatches text moat_hits rule = true →
      findPrompt text moat_hits (pre ++ rule :: post) = rule.2 := by
  intro pre
  induction pre with
  | nil =>
      intro rule post _ hm
      obtain ⟨keywords, prompt⟩ := rule
      simp only [ruleMatches, Bool.or_eq_true] at hm
      rw [List.nil_append, findPrompt]
      by_cases h1 : keywords.any (fun k => occursIn k.toList text) = true
      · rw [if_pos h1]
      · rw [if_neg h1, if_pos (hm.resolve_left h1)]
  | cons r pre' ih =>
      intro rule post hpre hm
      obtain ⟨kw, pr⟩ := r
      have hr := hpre (kw, pr) (List.mem_cons_self _ _)
      simp only [ruleMatches, Bool.or_eq_false_iff] at hr
      rw [List.cons_append, findPrompt, if_neg (by rw [hr.1]; simp),
        if_neg (by rw [hr.2]; simp),
        ih rule post (fun x hx => hpre x (List.mem_cons_of_mem _ hx)) hm]

theorem findPrompt_generic (text : List Char) (moat_hits : List (List Char)) :
    ∀ rules, (∀ r ∈ rules, ruleMatches text moat_hits r = false) →
      findPrompt text moat_hits rules = genericInversionPrompt := by
  intro rules
  induction rules with
  | nil =>
      intro _
      rfl
  | cons r rest ih =>
      intro h
      obtain ⟨kw, pr⟩ := r
      have hr := h (kw, pr) (List.mem_cons_self _ _)
      simp only [ruleMatches, Bool.or_eq_false_iff] at hr
      rw [findPrompt, if_neg (by rw [hr.1]; simp), if_neg (by rw [hr.2]; simp)]
      exact ih (fun x hx => h x (List.mem_cons_of_mem _ hx))

theorem tokensAux_ne_nil : ∀ (l acc : List Char), acc ≠ [] → tokensAux l acc ≠ [] := by
  intro l
  induction l with
  | nil =>
      intro acc h
      rw [tokensAux, if_neg h]
      simp
  | cons c rest ih =>
      intro acc h
      rw [tokensAux]
      by_cases hw : isWordChar c = true
      · rw [if_pos hw]
        exact ih _ (by simp)
      · rw [if_neg hw, if_neg h]
        simp

theorem noword_of_tokensAux_nil :
    ∀ (l : List Char), tokensAux l [] = [] → ∀ c ∈ l, isWordChar c = false := by
  intro l
  induction l with
  | nil =>
      intro _ c hc
      cases hc
  | cons c rest ih =>
      intro h x hx
      rw [tokensAux] at h
      by_cases hw : isWordChar c = true
      · rw [if_pos hw] at h
        exact absurd h (tokensAux_ne_nil rest [c] (by simp))
      · rw [if_neg hw, if_pos rfl] at h
        rcases List.mem_cons.mp hx with rfl | hx'
        · exact Bool.eq_false_iff.mpr hw
        · exact ih h x hx'

theorem tokensAux_nil_of_noword :
    ∀ (l : List Char), (∀ c ∈ l, isWordChar c = false) → tokensAux l [] = [] := by
  intro l
  induction l with
  | nil =>
      intro _
      rfl
  | cons c rest ih =>
      intro h
      rw [tokensAux, if_neg (by simp [h c (List.mem_cons_self _ _)]), if_pos rfl]
      exact ih (fun x hx => h x (List.mem_cons_of_mem _ hx))

theorem splitSentChars_chars :
    ∀ (l acc seg : List Char), seg ∈ splitSentChars l acc → ∀ c ∈ seg, c ∈ l ∨ c ∈ acc := by
  intro l
  induction l with
  | nil =>
      intro acc seg hseg c hc
      rw [splitSentChars, List.mem_singleton] at hseg
      subst hseg
      exact Or.inr hc
  | cons a rest ih =>
      intro acc seg hseg c hc
      rw [splitSentChars] at hseg
      by_cases ha : (a == '.' || a == '!' || a == '?') = true
      · rw [if_pos ha] at hseg
        rcases List.mem_cons.mp hseg with rfl | hseg'
        · exact Or.inr hc
        · rcases ih [] seg hseg' c hc with h | h
          · exact Or.inl (List.mem_cons_of_mem _ h)
          · cases h
      · rw [if_neg ha] at hseg
        rcases ih (acc ++ [a]) seg hseg c hc with h | h
        · exact Or.inl (List.mem_cons_of_mem _ h)
        · rcases List.mem_append.mp h with h' | h'
          · exact Or.inr h'
          · rw [List.mem_singleton] at h'
            subst h'
            exact Or.inl (List.mem_cons_self _ _)

theorem mem_of_mem_pyStrip {c : Char} {l : List Char} (h : c ∈ pyStrip l) : c ∈ l := by
  unfold pyStrip at h
  rw [List.mem_reverse] at h
  have h2 := (List.dropWhile_sublist _).subset h
  rw [List.mem_reverse] at h2
  exact (List.dropWhile_sublist _).subset h2

theorem extractNumber_eq_none :
    ∀ (l : List Char), (∀ c ∈ l, c.isDigit = false) → extractNumber l = none := by
  intro l
  induction l with
  | nil =>
      intro _
      rfl
  | cons c rest ih =>
      intro h
      have hside : ¬((c == '-' && headIsDigit rest) = true) := by
        cases rest with
        | nil => simp [headIsDigit]
        | cons d rest' =>
            simp only [headIsDigit, Bool.and_eq_true, beq_iff_eq]
            rintro ⟨-, hd⟩
            exact absurd hd (by simp [h d (List.mem_cons_of_mem _ (List.mem_cons_self _ _))])
      rw [extractNumber, if_neg (by simp [h c (List.mem_cons_self _ _)]), if_neg hside]
      exact ih (fun x hx => h x (List.mem_cons_of_mem _ hx))

theorem isDigit_toLower_eq_false (c : Char) (h : c.isDigit = false) :
    c.toLower.isDigit = false := by
  have hdef : c.toLower = if c.toNat ≥ 65 ∧ c.toNat ≤ 90 then Char.ofNat (c.toNat + 32) else c :=
    rfl
  rw [hdef]
  split
  · rename_i hc
    obtain ⟨h1, h2⟩ := hc
    generalize hn : Char.toNat c = n at h1 h2 ⊢
    interval_cases n <;> decide
  · exact h

theorem parse_number_none_of_nodigit (raw : String)
    (h : ∀ c ∈ raw.toList, c.isDigit = false) : _parse_number (some raw) = none := by
  have hlow : ∀ c ∈ pyLower (pyStrip raw.toList), c.isDigit = false := by
    intro c hc
    obtain ⟨c0, hc0, rfl⟩ := List.mem_map.mp hc
    exact isDigit_toLower_eq_false c0 (h c0 (mem_of_mem_pyStrip hc0))
  rw [_parse_number]
  by_cases he : pyLower (pyStrip raw.toList) = []
  · rw [if_pos he]
  · rw [if_neg he]
    dsimp only
    rw [extractNumber_eq_none _
      (fun c hc => hlow c (List.mem_of_mem_filter hc))]

theorem biasKeywords_partition_perm (f : String × String × List String → Bool) :
    List.Perm
      ((BIAS_KEYWORDS.filter f).map (fun p => p.2.1)
        ++ (BIAS_KEYWORDS.filter (fun p => !f p)).map (fun p => p.2.1))
      (BIAS_KEYWORDS.map (fun p => p.2.1)) := by
  rw [← List.map_append]
  exact (List.filter_append_perm f BIAS_KEYWORDS).map _

theorem rank_biases_length (thesis : String) : (_rank_biases thesis).length = 3 := by
  rw [rank_biases_characterization, List.length_take,
    (biasKeywords_partition_perm _).length_eq]
  rfl

theorem rank_biases_nodup (thesis : String) : (_rank_biases thesis).Nodup := by
  rw [rank_biases_characterization]
  exact List.Nodup.sublist (List.take_sublist _ _)
    (((biasKeywords_partition_perm _).nodup_iff).mpr (by decide))

theorem rank_biases_mem (thesis : String) :
    ∀ b ∈ _rank_biases thesis,
      b ∈ ["Incentives", "Social-Proof", "Commitment/Consistency", "Authority"] := by
  intro b hb
  rw [rank_biases_characterization] at hb
  exact (biasKeywords_partition_perm _).subset (List.take_subset _ _ hb)

/-! ## Claims -/

/-- Claim C1, amended: for every thesis text and every pair of optional numeric
strings, `four_filters` returns a Snapshot whose `filters` mapping has exactly
the four keys `"Understandable"`, `"Moat"`, `"Management"`,
`"Margin of Safety"` (in that order), and whose bias-risk list has exactly 3
pairwise-distinct entries drawn from the 4 fixed bias category names. -/
theorem C1_snapshot_shape (thesis : String) (pe fcf : Option String) :
    (four_filters thesis pe fcf).filters.map Prod.fst
        = ["Understandable", "Moat", "Management", "Margin of Safety"] ∧
    (four_filters thesis pe fcf).biases.length = 3 ∧
    (four_filters thesis pe fcf).biases.Nodup ∧
    ∀ b ∈ (four_filters thesis pe fcf).biases,
      b ∈ ["Incentives", "Social-Proof", "Commitment/Consistency", "Authority"] := by
  have hb : (four_filters thesis pe fcf).biases = _rank_biases thesis := rfl
  exact ⟨rfl, hb ▸ rank_biases_length thesis, hb ▸ rank_biases_nodup thesis,
    hb ▸ rank_biases_mem thesis⟩

/-- Claim C1 counterexample: the claim's fourth key name is wrong.  The
`filters` mapping built by `four_filters` keys the margin-of-safety verdict
as `"Margin of Safety"`, so the claimed key `"MarginOfSafety"` is absent —
here checked at the concrete input `("", none, none)`. -/
theorem C1_key_name_counterexample :
    "MarginOfSafety" ∉ (four_filters "" none none).filters.map Prod.fst ∧
    (four_filters "" none none).filters.map Prod.fst
      = ["Understandable", "Moat", "Management", "Margin of Safety"] := by
  exact ⟨by decide, rfl⟩

/-- Claim C3: the posture is a pure function of the four verdict statuses,
computed exactly by the spec's counting rule: if at least 2 of the four are
`Fail` the posture is `"No"`; else if there are 0 `Fail`, 0 `NeedsData` and
at least 3 `Pass` it is `"Go"`; in every other case it is `"Wait"`. -/
theorem C3_posture_rule (n1 n2 n3 n4 : String) (r1 r2 r3 r4 : FilterResult) :
    _posture [(n1, r1), (n2, r2), (n3, r3), (n4, r4)]
      = postureSpec r1.status r2.status r3.status r4.status := by
  obtain ⟨s1, d1, h1⟩ := r1
  obtain ⟨s2, d2, h2⟩ := r2
  obtain ⟨s3, d3, h3⟩ := r3
  obtain ⟨s4, d4, h4⟩ := r4
  cases s1 <;> cases s2 <;> cases s3 <;> cases s4 <;> rfl

/-- Claim C6: the bias ranker lists first every triggered category (some keyword
a substring of the lowercased text) in declaration order, then the untriggered
categories in declaration order, truncated to exactly the first 3 entries. -/
theorem C6_bias_rank_order (thesis : String) :
    _rank_biases thesis
      = (((BIAS_KEYWORDS.filter (fun p => biasTriggered (pyLower thesis.toList) p.2.2)).map
            (fun p => p.2.1))
          ++ ((BIAS_KEYWORDS.filter
                (fun p => !biasTriggered (pyLower thesis.toList) p.2.2)).map
            (fun p => p.2.1))).take 3 ∧
    (_rank_biases thesis).length = 3 :=
  ⟨rank_biases_characterization thesis, rank_biases_length thesis⟩

/-- Claim C2: the margin-of-safety filter applies its rules in fixed order with
first match winning: P/E parsed and ≤ 15 gives `Pass` (even when the
FCF-yield would fail its bar, as at `P/E="10"`, `FCF-yield="2"`); else
FCF-yield parsed and ≥ 6 gives `Pass`; else if at least one value parsed the
verdict is `Fail` with a semicolon-joined rationale per supplied value; else
the status is `NeedsData`. -/
theorem C2_margin_of_safety_priority (pe fcf : Option String) :
    (∀ p, _parse_number pe = some p → p ≤ 15 →
        _score_margin_of_safety pe fcf
          = ⟨Status.Pass, "P/E " ++ fmt1 p ++ " within <=15 guardrail.", none⟩) ∧
    (∀ f, (∀ p, _parse_number pe = some p → ¬ p ≤ 15) →
        _parse_number fcf = some f → 6 ≤ f →
        _score_margin_of_safety pe fcf
          = ⟨Status.Pass, "FCF yield " ++ fmt1 f ++ "% clears >=6% bar.", none⟩) ∧
    ((∀ p, _parse_number pe = some p → ¬ p ≤ 15) →
      (∀ f, _parse_number fcf = some f → ¬ 6 ≤ f) →
      (_parse_number pe ≠ none ∨ _parse_number fcf ≠ none) →
        _score_margin_of_safety pe fcf
          = ⟨Status.Fail, String.intercalate "; "
              ((match _parse_number pe with
                | some p => ["P/E " ++ fmt1 p ++ " > 15"]
                | none => []) ++
               (match _parse_number fcf with
                | some f => ["FCF yield " ++ fmt1 f ++ "% < 6%"]
                | none => [])), none⟩) ∧
    (_parse_number pe = none → _parse_number fcf = none →
        _score_margin_of_safety pe fcf
          = ⟨Status.NeedsData, "— add P/E or FCF-yield to judge MOS.", none⟩) ∧
    _score_margin_of_safety (some "10") (some "2")
      = ⟨Status.Pass, "P/E 10.0 within <=15 guardrail.", none⟩ := by
  refine ⟨?_, ?_, ?_, ?_, by decide⟩
  · intro p hp hle
    cases hfcf : _parse_number fcf with
    | none => simp only [_score_margin_of_safety, hp, hfcf, if_pos hle]
    | some f => simp only [_score_margin_of_safety, hp, hfcf, if_pos hle]
  · intro f hnp hf h6
    cases hpe : _parse_number pe with
    | none => simp only [_score_margin_of_safety, hpe, hf, if_pos h6]
    | some p =>
        simp only [_score_margin_of_safety, hpe, hf]
        rw [if_neg (hnp p hpe), if_pos h6]
  · intro hnp hnf hor
    cases hpe : _parse_number pe with
    | none =>
        cases hfcf : _parse_number fcf with
        | none =>
            rcases hor with h | h
            · exact (h hpe).elim
            · exact (h hfcf).elim
        | some f =>
            simp only [_score_margin_of_safety, hpe, hfcf]
            rw [if_neg (hnf f hfcf)]
            simp
    | some p =>
        cases hfcf : _parse_number fcf with
        | none =>
            simp only [_score_margin_of_safety, hpe, hfcf]
            rw [if_neg (hnp p hpe)]
            simp
        | some f =>
            simp only [_score_margin_of_safety, hpe, hfcf]
            rw [if_neg (hnp p hpe), if_neg (hnf f hfcf)]
            simp
  · intro h1 h2
    simp only [_score_margin_of_safety, h1, h2]

/-- Witness for C2 at the concrete inputs `P/E="10"`, `FCF-yield="2"`. -/
theorem C2_margin_of_safety_priority_witness :
    _score_margin_of_safety (some "10") (some "2")
      = ⟨Status.Pass, "P/E " ++ fmt1 10 ++ " within <=15 guardrail.", none⟩ ∧
    _parse_number (some "10") = some 10 ∧ ((10 : ℚ) ≤ 15) :=
  ⟨(C2_margin_of_safety_priority (some "10") (some "2")).1 10 (by decide) (by decide),
   by decide, by decide⟩

/-- Claim C4: the management filter gives red flags absolute priority: any
red-flag keyword in the lowercased thesis yields `Fail` with
`"Red flags: "` followed by the comma-joined red-flag labels, regardless of
positive hits (e.g. a thesis with both `"founder-led"` and `"lawsuit"`);
else positive hits yield `Pass` with comma-joined positive labels; else a
fixed `Fail` prompt. -/
theorem C4_management_red_flag_priority (thesis : String) :
    ((∃ kl ∈ MANAGEMENT_RED_FLAGS, occursIn kl.1.toList (pyLower thesis.toList) = true) →
        _score_management thesis
          = ⟨Status.Fail, "Red flags: " ++ String.intercalate ", "
              (collectHitsFrom (pyLower thesis.toList) MANAGEMENT_RED_FLAGS []), none⟩) ∧
    ((∀ kl ∈ MANAGEMENT_RED_FLAGS, occursIn kl.1.toList (pyLower thesis.toList) = false) →
      (∃ kl ∈ MANAGEMENT_POSITIVE, occursIn kl.1.toList (pyLower thesis.toList) = true) →
        _score_management thesis
          = ⟨Status.Pass, String.intercalate ", "
              (collectHitsFrom (pyLower thesis.toList) MANAGEMENT_POSITIVE []), none⟩) ∧
    ((∀ kl ∈ MANAGEMENT_RED_FLAGS, occursIn kl.1.toList (pyLower thesis.toList) = false) →
      (∀ kl ∈ MANAGEMENT_POSITIVE, occursIn kl.1.toList (pyLower thesis.toList) = false) →
        _score_management thesis
          = ⟨Status.Fail,
              "Note owner-operator traits, insider ownership, or capital allocation history.",
              none⟩) ∧
    _score_management "founder-led but lawsuit pending"
      = ⟨Status.Fail, "Red flags: Shareholder lawsuit", none⟩ := by
  have hnil : ∀ (table : List (String × String)),
      (∀ kl ∈ table, occursIn kl.1.toList (pyLower thesis.toList) = false) →
      collectHitsFrom (pyLower thesis.toList) table [] = [] := by
    intro table hall
    by_contra h
    obtain ⟨kl, hkl, hocc⟩ := (collectHits_ne_nil_iff _ _).mp h
    rw [hall kl hkl] at hocc
    cases hocc
  refine ⟨?_, ?_, ?_, by decide⟩
  · intro hex
    have hne := (collectHits_ne_nil_iff (pyLower thesis.toList) MANAGEMENT_RED_FLAGS).mpr hex
    simp only [_score_management]
    rw [if_pos hne]
  · intro hall hex
    have hne := (collectHits_ne_nil_iff (pyLower thesis.toList) MANAGEMENT_POSITIVE).mpr hex
    simp only [_score_management]
    rw [if_neg (not_not_intro (hnil _ hall)), if_pos hne]
  · intro hallneg hallpos
    simp only [_score_management]
    rw [if_neg (not_not_intro (hnil _ hallneg)), if_neg (not_not_intro (hnil _ hallpos))]

/-- Witness for C4 at a thesis holding both a positive keyword
(`"founder-led"`) and a red flag (`"lawsuit"`). -/
theorem C4_management_red_flag_priority_witness :
    _score_management "founder-led but lawsuit pending"
      = ⟨Status.Fail, "Red flags: " ++ String.intercalate ", "
          (collectHitsFrom (pyLower "founder-led but lawsuit pending".toList)
            MANAGEMENT_RED_FLAGS []), none⟩ :=
  (C4_management_red_flag_priority "founder-led but lawsuit pending").1 (by decide)

/-- Claim C5: the moat filter collects, in table declaration order, the label of
each keyword occurring in the lowercased thesis, deduplicating by label (so
`"network effect"` and `"network effects"` yield the single hit
`"Network effects"`); a non-empty hit list gives `Pass` with comma-joined
hits and `matchedKeywords` equal to the hit list, else `Fail` with a fixed
prompt and no hits. -/
theorem C5_moat_dedupe (thesis : String) :
    _score_moat thesis
      = (let hits := dedupFrom []
            ((MOAT_KEYWORDS.filter
              (fun kl => occursIn kl.1.toList (pyLower thesis.toList))).map Prod.snd)
         if hits ≠ [] then ⟨Status.Pass, String.intercalate ", " hits, some hits⟩
         else ⟨Status.Fail,
           "Spell out the moat (network effects, switching costs, brand, cost advantage).",
           none⟩) ∧
    (∀ h, (_score_moat thesis).hits = some h → h.Nodup) ∧
    _score_moat "network effect and network effects"
      = ⟨Status.Pass, "Network effects", some ["Network effects"]⟩ := by
  refine ⟨?_, ?_, by decide⟩
  · simp only [_score_moat, collectHitsFrom_eq, List.nil_append]
  · intro h hh
    simp only [_score_moat] at hh
    by_cases hne : collectHitsFrom (pyLower thesis.toList) MOAT_KEYWORDS [] ≠ []
    · rw [if_pos hne] at hh
      injection hh with hh'
      rw [← hh', collectHitsFrom_eq, List.nil_append]
      exact nodup_dedupFrom _ _
    · rw [if_neg hne] at hh
      cases hh

/-- Claim C7: the inversion advisor returns the prompt of the first rule (in the
fixed rule order) that fires — a trigger keyword occurring in the lowercased
thesis, or (when the moat verdict has matched labels) in a lowercased matched
label — and the fixed generic prompt when no rule fires. -/
theorem C7_inversion_first_rule (thesis : String) (moat_result : FilterResult) :
    (∀ (pre : List (List String × String)) (rule : List String × String)
        (post : List (List String × String)),
      INVERSION_RULES = pre ++ rule :: post →
      (∀ r ∈ pre, ruleMatches (pyLower thesis.toList) (invMoatHits moat_result) r = false) →
      ruleMatches (pyLower thesis.toList) (invMoatHits moat_result) rule = true →
      _invert_question thesis moat_result = rule.2) ∧
    ((∀ r ∈ INVERSION_RULES,
        ruleMatches (pyLower thesis.toList) (invMoatHits moat_result) r = false) →
      _invert_question thesis moat_result = genericInversionPrompt) := by
  have hdef : _invert_question thesis moat_result
      = findPrompt (pyLower thesis.toList) (invMoatHits moat_result) INVERSION_RULES := rfl
  constructor
  · intro pre rule post heq hpre hm
    rw [hdef, heq]
    exact findPrompt_first _ _ pre rule post hpre hm
  · intro hall
    rw [hdef]
    exact findPrompt_generic _ _ _ hall

/-- Witness for C7: a thesis matching no trigger keyword together with a
`Fail` moat verdict without matched labels falls through to the generic
prompt. -/
theorem C7_inversion_first_rule_witness :
    _invert_question "hello" ⟨Status.Fail, "", none⟩ = genericInversionPrompt :=
  (C7_inversion_first_rule "hello" ⟨Status.Fail, "", none⟩).2 (by decide)

/-- Claim C8: the Understandable filter returns `Fail` with exactly
`"Add a concise thesis summary."` when the trimmed text is empty; otherwise
it returns `Pass` with the fixed details exactly when the first sentence has
at most 30 words, the long-word ratio is at most 0.20, and the paragraph
count is at most 2, and otherwise `Fail` with the space-joined remediation
messages of the failing conditions in the fixed order summary, jargon,
segments. -/
theorem C8_understandable_conditions (thesis : String) :
    (pyStrip thesis.toList = [] →
      _score_understandable thesis
        = ⟨Status.Fail, "Add a concise thesis summary.", none⟩) ∧
    (pyStrip thesis.toList ≠ [] →
      _score_understandable thesis =
        if firstSentenceWordCount (pyStrip thesis.toList) ≤ 30 ∧
            longWordRatio (pyStrip thesis.toList) ≤ (0.20 : ℚ) ∧
            _count_paragraphs (pyStrip thesis.toList) ≤ 2 then
          ⟨Status.Pass, "Clear one-sentence hook; jargon in check.", none⟩
        else
          ⟨Status.Fail, String.intercalate " "
            (understandMisses
              (decide (firstSentenceWordCount (pyStrip thesis.toList) ≤ 30))
              (decide (longWordRatio (pyStrip thesis.toList) ≤ (0.20 : ℚ)))
              (decide (_count_paragraphs (pyStrip thesis.toList) ≤ 2))), none⟩) := by
  have h02 : (0.20 : ℚ) = (0.2 : ℚ) := by decide
  rw [h02]
  constructor
  · intro he
    simp only [_score_understandable]
    rw [if_pos he]
  · intro hne
    simp only [_score_understandable]
    rw [if_neg hne]
    by_cases h1 : firstSentenceWordCount (pyStrip thesis.toList) ≤ 30 <;>
      by_cases h2 : longWordRatio (pyStrip thesis.toList) ≤ (0.2 : ℚ) <;>
      by_cases h3 : _count_paragraphs (pyStrip thesis.toList) ≤ 2 <;>
      simp [h1, h2, h3, and_assoc]

/-- Witness for C8 at the empty thesis. -/
theorem C8_understandable_conditions_witness :
    _score_understandable "" = ⟨Status.Fail, "Add a concise thesis summary.", none⟩ :=
  (C8_understandable_conditions "").1 (by decide)

/-- Claim C9: `analyze` raises no error for any inputs (every operation of the
model is total by construction): an absent numeric input parses to no value,
a numeric input without a digit parses to no value, and when both numeric
inputs parse to no value the margin-of-safety verdict of the snapshot has
status `NeedsData` rather than any exception being raised. -/
theorem C9_no_error_needs_data (thesis : String) (pe fcf : Option String) :
    _parse_number none = none ∧
    (∀ raw : String, (∀ c ∈ raw.toList, c.isDigit = false) →
      _parse_number (some raw) = none) ∧
    (_parse_number pe = none → _parse_number fcf = none →
      List.lookup "Margin of Safety" (four_filters thesis pe fcf).filters
        = some ⟨Status.NeedsData, "— add P/E or FCF-yield to judge MOS.", none⟩) := by
  refine ⟨rfl, parse_number_none_of_nodigit, ?_⟩
  intro h1 h2
  have hm : _score_margin_of_safety pe fcf
      = ⟨Status.NeedsData, "— add P/E or FCF-yield to judge MOS.", none⟩ := by
    simp only [_score_margin_of_safety, h1, h2]
  have hf : (four_filters thesis pe fcf).filters = [
      ("Understandable", _score_understandable thesis),
      ("Moat", _score_moat thesis),
      ("Management", _score_management thesis),
      ("Margin of Safety", _score_margin_of_safety pe fcf)] := rfl
  rw [hf, hm]
  rfl

/-- Witness for C9 at a digit-free P/E text and an absent FCF-yield text. -/
theorem C9_no_error_needs_data_witness :
    List.lookup "Margin of Safety" (four_filters "thesis" (some "n/a") none).filters
      = some ⟨Status.NeedsData, "— add P/E or FCF-yield to judge MOS.", none⟩ :=
  (C9_no_error_needs_data "thesis" (some "n/a") none).2.2 (by decide) rfl

/-- Claim C10 counterexample: the thesis `",\n\n,\n\n,"` has non-empty trimmed
text and no alphanumeric-or-apostrophe token, yet the Understandable filter
returns `Fail`, not `Pass`: its paragraph count is 3 (not 1, as claimed),
which fails the segments condition. -/
theorem C10_no_token_counterexample :
    pyStrip ",\n\n,\n\n,".toList ≠ [] ∧
    _tokenize_words (pyStrip ",\n\n,\n\n,".toList) = [] ∧
    _count_paragraphs (pyStrip ",\n\n,\n\n,".toList) = 3 ∧
    _score_understandable ",\n\n,\n\n,"
      ≠ ⟨Status.Pass, "Clear one-sentence hook; jargon in check.", none⟩ ∧
    _score_understandable ",\n\n,\n\n,"
      = ⟨Status.Fail, "Too many disjoint segments—tighten focus.", none⟩ :=
  ⟨by decide, by decide, by decide, by decide, by decide⟩

/-- Claim C10, amended: for every thesis whose trimmed text is non-empty,
contains no alphanumeric-or-apostrophe token, and spans at most 2
(blank-line-separated) paragraphs, the Understandable filter returns `Pass`
with details `"Clear one-sentence hook; jargon in check."`: the
first-sentence word count is 0 and the long-word ratio is 0 over zero
words. -/
theorem C10_no_token_pass (thesis : String)
    (h1 : pyStrip thesis.toList ≠ [])
    (h2 : _tokenize_words (pyStrip thesis.toList) = [])
    (h3 : _count_paragraphs (pyStrip thesis.toList) ≤ 2) :
    _score_understandable thesis
      = ⟨Status.Pass, "Clear one-sentence hook; jargon in check.", none⟩ ∧
    firstSentenceWordCount (pyStrip thesis.toList) = 0 ∧
    longWordRatio (pyStrip thesis.toList) = 0 := by
  have hratio : longWordRatio (pyStrip thesis.toList) = 0 := by
    rw [longWordRatio, h2]
    norm_num
  have hfsw : firstSentenceWordCount (pyStrip thesis.toList) = 0 := by
    rw [firstSentenceWordCount]
    cases hs : _count_sentences (pyStrip thesis.toList) with
    | nil => rfl
    | cons s rest =>
        have hsmem : s ∈ _count_sentences (pyStrip thesis.toList) := by
          rw [hs]
          exact List.mem_cons_self _ _
        rw [_count_sentences] at hsmem
        obtain ⟨seg, hseg, rfl⟩ := List.mem_map.mp (List.mem_of_mem_filter hsmem)
        have hnw : ∀ c ∈ pyLower (pyStrip thesis.toList), isWordChar c = false :=
          noword_of_tokensAux_nil _ h2
        have htok : _tokenize_words (pyStrip seg) = [] := by
          rw [_tokenize_words]
          apply tokensAux_nil_of_noword
          intro c hc
          obtain ⟨c0, hc0, rfl⟩ := List.mem_map.mp hc
          have hc1 : c0 ∈ seg := mem_of_mem_pyStrip hc0
          have hc2 : c0 ∈ pyStrip thesis.toList := by
            rcases splitSentChars_chars _ [] seg hseg c0 hc1 with h | h
            · exact h
            · cases h
          exact hnw _ (List.mem_map.mpr ⟨c0, hc2, rfl⟩)
        simp [htok]
  refine ⟨?_, hfsw, hratio⟩
  have hb1 : decide (firstSentenceWordCount (pyStrip thesis.toList) ≤ 30) = true := by
    rw [hfsw]
    decide
  have hb2 : decide (longWordRatio (pyStrip thesis.toList) ≤ (0.2 : ℚ)) = true := by
    rw [hratio]
    decide
  have hb3 : decide (_count_paragraphs (pyStrip thesis.toList) ≤ 2) = true := by
    simpa using h3
  simp only [_score_understandable]
  rw [if_neg h1, hb1, hb2, hb3]
  rfl

/-- Witness for the amended C10 at the punctuation-only thesis `"..."`. -/
theorem C10_no_token_pass_witness :
    _score_understandable "..."
      = ⟨Status.Pass, "Clear one-sentence hook; jargon in check.", none⟩ ∧
    pyStrip "...".toList ≠ [] ∧
    _tokenize_words (pyStrip "...".toList) = [] ∧
    _count_paragraphs (pyStrip "...".toList) ≤ 2 :=
  ⟨(C10_no_token_pass "..." (by decide) (by decide) (by decide)).1,
   by decide, by decide, by decide⟩

end MungerSnap
